import Mathlib

/-!
Verification of the task coordination and farm scheduling core of the
tribal-wars browser extension.

The definitions below are a shallow embedding of the TypeScript sources:

* `src/extension/src/background/TaskScheduler.ts` — the durable priority
  task queue with rate limiting, retry/backoff and completion lifecycle;
* `src/extension/src/background/StateManager.ts` — the persistence layer
  (its pure task-queue mutators and the reload routine `loadState`);
* `src/extension/src/background/FarmStateManager.ts` — the shared arrival
  records and cross-village attack-plan bookkeeping;
* `src/extension/src/core/SmartFarmService.ts` — travel time computation,
  slowest-unit lookup and the periodic `checkAndScheduleAttacks` pass.

Wall-clock instants on the scheduler side are integer epoch milliseconds,
modelled as `Nat`.  The farm side mixes integers with fractional travel
times (`distance` is fractional, division by world speed is exact in the
source's floating arithmetic only on the rational values the claims are
about), so farm-side times are modelled as `ℚ`.  Randomness (`Date.now`,
jitter, generated ids) is passed in explicitly as parameters.
-/

namespace TW

/-! ## Timing constants, from `src/extension/src/shared/constants.ts` -/

def MIN_ACTION_DELAY_MS : Nat := 1000

def MAX_JITTER_MS : Nat := 500

def TAB_DEAD_THRESHOLD_MS : Nat := 15000

def FARM_TARGET_INTERVAL_MS : ℚ := 1800000

/-! ## Task model, from `src/extension/src/shared/types.ts` -/

/-- One schedulable unit of work (`interface ScheduledTask`).  The opaque
payload map is modelled as an association list of strings. -/
structure ScheduledTask where
  id : String
  type : String
  villageId : Nat
  worldId : String
  scheduledTime : Nat
  priority : Nat
  retryCount : Nat
  maxRetries : Nat
  payload : List (String × String)
  createdAt : Nat
  deriving DecidableEq, Repr

/-- Result of a task execution reported back by an agent
(`interface TaskResult`). -/
structure TaskResult where
  taskId : String
  success : Bool
  error : Option String
  data : Option (List (String × String))
  nextScheduledTime : Option Nat
  deriving DecidableEq, Repr

/-- The JavaScript truthiness test `result.nextScheduledTime` used by
`completeTask`: present and non-zero. -/
def truthyTime : Option Nat → Bool
  | none => false
  | some t => t ≠ 0

/-- A user-visible terminal-failure notice
(`TaskScheduler.showErrorNotification`): task type, village id, error text. -/
structure FailureNotice where
  taskType : String
  villageId : Nat
  message : String
  deriving DecidableEq, Repr

/-- The scheduler-relevant part of the coordinator state: the durable task
queue and last global action time live in `StateManager`, the processing
slot lives in `TaskScheduler`. -/
structure SchedulerState where
  tasks : List ScheduledTask
  lastActionTime : Nat
  processingTask : Option ScheduledTask
  deriving DecidableEq, Repr

/-- `StateManager.removeTask`: drop every queued task with the given id. -/
def removeTaskQ (tasks : List ScheduledTask) (taskId : String) : List ScheduledTask :=
  tasks.filter (fun t => t.id ≠ taskId)

/-- `TaskScheduler.getTaskById`: first queued task with the given id. -/
def getTaskById (tasks : List ScheduledTask) (taskId : String) : Option ScheduledTask :=
  tasks.find? (fun t => t.id = taskId)

/-- The processing-slot clearing done at the top of `completeTask`,
`failTask` and `cancelTask`: clear the slot when it holds the reported id. -/
def clearProcessingIfMatch (proc : Option ScheduledTask) (taskId : String) :
    Option ScheduledTask :=
  match proc with
  | none => none
  | some p => if p.id = taskId then none else some p

/-- `TaskScheduler.scheduleTask` restricted to the follow-up call site in
`completeTask`: build a follow-up task from the original task and append it
to the queue.  `newId` stands for the generated id, `now` for `Date.now()`. -/
def mkFollowUpTask (orig : ScheduledTask) (r : TaskResult) (newId : String)
    (now : Nat) : ScheduledTask :=
  { id := newId
    type := orig.type
    villageId := orig.villageId
    worldId := orig.worldId
    scheduledTime := r.nextScheduledTime.getD now
    priority := orig.priority
    retryCount := 0
    maxRetries := 3
    payload := (r.data.getD orig.payload)
    createdAt := now }

/-- `TaskScheduler.completeTask`, exactly in source order: clear a matching
processing slot, remove the completed task from the queue, set
`lastActionTime := now`, and then — only when the result is successful and
carries a truthy `nextScheduledTime` — look the original task up again by id
and, if found, append a follow-up task. -/
def completeTask (s : SchedulerState) (r : TaskResult) (now : Nat)
    (newId : String) : SchedulerState :=
  let proc := clearProcessingIfMatch s.processingTask r.taskId
  let tasks1 := removeTaskQ s.tasks r.taskId
  let s1 : SchedulerState :=
    { tasks := tasks1, lastActionTime := now, processingTask := proc }
  if r.success ∧ truthyTime r.nextScheduledTime then
    match getTaskById s1.tasks r.taskId with
    | some orig => { s1 with tasks := s1.tasks ++ [mkFollowUpTask orig r newId now] }
    | none => s1
  else s1

/-- `TaskScheduler.failTask`: clear a matching processing slot; when the id
is unknown the queue is left as is (the `removeTask` there is a no-op);
when `retryCount < maxRetries` the task is rescheduled with backoff
`now + MIN_ACTION_DELAY_MS * (retryCount + 1) + jitter`; otherwise the task
is removed and a terminal-failure notice is emitted.  `jitter` stands for
the sampled `Math.floor(Math.random() * maxJitter)`. -/
def failTask (s : SchedulerState) (r : TaskResult) (now jitter : Nat) :
    SchedulerState × Option FailureNotice :=
  let proc := clearProcessingIfMatch s.processingTask r.taskId
  match getTaskById s.tasks r.taskId with
  | none =>
      ({ tasks := removeTaskQ s.tasks r.taskId
         lastActionTime := s.lastActionTime
         processingTask := proc }, none)
  | some task =>
      if task.retryCount < task.maxRetries then
        ({ tasks := s.tasks.map (fun t =>
              if t.id = task.id then
                { t with
                  retryCount := t.retryCount + 1
                  scheduledTime := now + MIN_ACTION_DELAY_MS * (t.retryCount + 1) + jitter }
              else t)
           lastActionTime := s.lastActionTime
           processingTask := proc }, none)
      else
        ({ tasks := removeTaskQ s.tasks r.taskId
           lastActionTime := s.lastActionTime
           processingTask := proc },
         some { taskType := task.type
                villageId := task.villageId
                message := r.error.getD "Unknown error" })

/-- The strict ordering used by the comparator in `getNextTask`:
priority ascending, then scheduled time ascending. -/
def taskKeyLt (a b : ScheduledTask) : Bool :=
  a.priority < b.priority ∨ (a.priority = b.priority ∧ a.scheduledTime < b.scheduledTime)

/-- One comparison step of the head-of-stable-sort computation: replace the
best-so-far only on a strictly smaller key, so the first minimum survives. -/
def selMinStep (acc : Option ScheduledTask) (t : ScheduledTask) : Option ScheduledTask :=
  match acc with
  | none => some t
  | some b => if taskKeyLt t b then some t else acc

/-- Head of the stable sort of `l` under `taskKeyLt`: the first element
attaining the lexicographically least (priority, scheduledTime) key.  This
is `dueTasks.sort(...)[0] ?? null` of the source (ES2019 sort is stable). -/
def selectFirstMin (l : List ScheduledTask) : Option ScheduledTask :=
  l.foldl selMinStep none

/-- `TaskScheduler.getNextTask`: `null` while a task is processing, `null`
inside the global minimum action delay, otherwise the first
lexicographically least due task. -/
def getNextTask (s : SchedulerState) (now : Nat) : Option ScheduledTask :=
  if s.processingTask.isSome then none
  else if now - s.lastActionTime < MIN_ACTION_DELAY_MS then none
  else selectFirstMin (s.tasks.filter (fun t => t.scheduledTime ≤ now))

/-! ## Reload routine, from `StateManager.loadState` -/

/-- The slice of a registered tab that the reload routine consults. -/
structure TabInfoL where
  tabId : Nat
  lastHeartbeat : Nat
  deriving DecidableEq, Repr

/-- The keys a cold start may find in `chrome.storage.local`.  `saveState`
writes only the tab registry, the task queue and the last action time; the
`isRunning` field stands for any running flag a stored blob might carry —
`loadState` never reads it. -/
structure PersistedStore where
  tabRegistry : Option (List (Nat × TabInfoL))
  taskQueue : Option (List ScheduledTask)
  lastActionTime : Option Nat
  isRunning : Option Bool
  deriving DecidableEq, Repr

/-- In-memory coordinator state rebuilt by the reload routine
(`interface CoordinatorState`). -/
structure CoordinatorState where
  tabs : List (Nat × TabInfoL)
  tasks : List ScheduledTask
  lastActionTime : Nat
  isRunning : Bool
  lastUpdated : Nat
  deriving DecidableEq, Repr

/-- `StateManager.loadState`: re-hydrate from storage with defaults, always
start with `isRunning := false`, and purge tabs whose heartbeat is older
than the dead threshold.  Tasks are taken over verbatim. -/
def loadState (store : PersistedStore) (now : Nat) : CoordinatorState :=
  { tabs := (store.tabRegistry.getD []).filter
      (fun p => ¬ (now - p.2.lastHeartbeat > TAB_DEAD_THRESHOLD_MS))
    tasks := store.taskQueue.getD []
    lastActionTime := store.lastActionTime.getD 0
    isRunning := false
    lastUpdated := now }

/-! ## Unit speeds and attack templates, from `src/extension/src/shared/types.ts` -/

/-- Troop types (`type UnitType`). -/
inductive UnitType
  | spy | light | marcher | heavy | spear | sword | axe | archer | ram | catapult | snob
  deriving DecidableEq, Repr

/-- Minutes per field for each unit (`UNIT_SPEEDS`). -/
def UNIT_SPEEDS : UnitType → ℚ
  | .spy => 9
  | .light => 10
  | .marcher => 10
  | .heavy => 11
  | .spear => 18
  | .sword => 22
  | .axe => 18
  | .archer => 18
  | .ram => 30
  | .catapult => 30
  | .snob => 35

/-- Farm Assistant template identifier. -/
inductive TemplateId | A | B
  deriving DecidableEq, Repr

/-- An attack profile (`interface FarmAttackTemplate`): unit counts as an
association list in `Object.entries` order, plus an optional pre-declared
slowest unit. -/
structure FarmAttackTemplate where
  id : TemplateId
  units : List (UnitType × Nat)
  slowestUnit : Option UnitType
  deriving DecidableEq, Repr

/-- Loop body of the slowest-unit scan: take the entry when its count is
positive and its speed strictly exceeds the best so far. -/
def slowUnitStep (acc : UnitType × ℚ) (p : UnitType × Nat) : UnitType × ℚ :=
  if 0 < p.2 ∧ acc.2 < UNIT_SPEEDS p.1 then (p.1, UNIT_SPEEDS p.1) else acc

/-- `SmartFarmService.getSlowestUnit`: trust a pre-declared slowest unit;
otherwise scan the unit counts, keeping the first unit whose speed strictly
exceeds the best so far, starting from `spy` with speed 0. -/
def getSlowestUnit (t : FarmAttackTemplate) : UnitType :=
  match t.slowestUnit with
  | some u => u
  | none => (t.units.foldl slowUnitStep (UnitType.spy, 0)).1

/-- World configuration fetched from the game (`interface WorldConfig`);
`none` models a `null` `this.worldConfig`. -/
structure WorldCfg where
  speed : ℚ
  unitSpeed : ℚ
  deriving DecidableEq, Repr

/-- The `this.worldConfig?.speed || DEFAULT_WORLD_SPEED` read: a missing
config or a falsy (zero) speed falls back to 1. -/
def effWorldSpeed : Option WorldCfg → ℚ
  | none => 1
  | some c => if c.speed = 0 then 1 else c.speed

/-- The `this.worldConfig?.unitSpeed || DEFAULT_UNIT_SPEED` read. -/
def effUnitModifier : Option WorldCfg → ℚ
  | none => 1
  | some c => if c.unitSpeed = 0 then 1 else c.unitSpeed

/-- `SmartFarmService.calculateTravelTimeMs`:
`(distance * unitSpeed) / (worldSpeed * unitSpeedMod) * 60 * 1000`. -/
def calculateTravelTimeMs (cfg : Option WorldCfg) (distance : ℚ)
    (slowestUnit : UnitType) : ℚ :=
  distance * UNIT_SPEEDS slowestUnit / (effWorldSpeed cfg * effUnitModifier cfg) * 60 * 1000

/-! ## Farm targets, plans and the scheduling pass, from `SmartFarmService.ts` -/

/-- Availability of a farm target as parsed from the Farm Assistant page. -/
inductive TargetStatus | available | cooldown | attacking
  deriving DecidableEq, Repr

/-- One attackable village (`interface FarmTarget`). -/
structure FarmTarget where
  villageId : Nat
  coords : String
  x : Nat
  y : Nat
  distance : ℚ
  wallLevel : Option Nat
  lastAttacked : Option ℚ
  status : TargetStatus
  deriving DecidableEq, Repr

/-- Status of an attack plan. -/
inductive PlanStatus | pending | sent | failed
  deriving DecidableEq, Repr

/-- One planned attack (`interface FarmAttackPlan`). -/
structure FarmAttackPlan where
  targetId : String
  targetCoords : String
  sourceVillageId : Nat
  template : TemplateId
  sendTime : ℚ
  arrivalTime : ℚ
  travelTimeMs : ℚ
  status : PlanStatus
  deriving DecidableEq, Repr

/-- Arrival records: a `Map<string, number>` from target coordinates to the
latest known or planned arrival, modelled as an association list. -/
abbrev ArrivalMap : Type := List (String × ℚ)

/-- `map.get(coords)`. -/
def lookupArrival (ar : ArrivalMap) (coords : String) : Option ℚ :=
  ((ar : List (String × ℚ)).find? (fun p => p.1 = coords)).map (fun p => p.2)

/-- `map.set(coords, t)`: overwrite the existing entry or append a new one. -/
def setArrival (ar : ArrivalMap) (coords : String) (t : ℚ) : ArrivalMap :=
  match (ar : List (String × ℚ)) with
  | [] => [(coords, t)]
  | p :: rest =>
      if p.1 = coords then (coords, t) :: rest
      else p :: setArrival rest coords t

/-- `map.delete(coords)`. -/
def eraseArrival (ar : ArrivalMap) (coords : String) : ArrivalMap :=
  (ar : List (String × ℚ)).filter (fun p => p.1 ≠ coords)

/-- In-memory state of one `SmartFarmService` instance (one tab, one source
village).  The DOM, tickers and message plumbing are outside the embedding:
`targets` is the parsed target map (in insertion order) and the arrivals
synced from the background arrive as an explicit parameter of the pass. -/
structure FarmServiceState where
  targets : List FarmTarget
  scheduledAttacks : List FarmAttackPlan
  arrivals : ArrivalMap
  sourceVillageId : Option Nat
  templateA : Option FarmAttackTemplate
  templateB : Option FarmAttackTemplate
  worldConfig : Option WorldCfg
  enabled : Bool
  deriving Repr

/-- `SmartFarmService.selectTemplate`: prefer A, fall back to B, else the
built-in default profile of 10 spears. -/
def selectTemplate (s : FarmServiceState) : FarmAttackTemplate :=
  match s.templateA with
  | some a => a
  | none =>
      match s.templateB with
      | some b => b
      | none => { id := .A, units := [(.spear, 10)], slowestUnit := some .spear }

/-- Travel time one pass of `checkAndScheduleAttacks` computes for a
target: the selected template's slowest unit over the current world config. -/
def travelOf (s : FarmServiceState) (t : FarmTarget) : ℚ :=
  calculateTravelTimeMs s.worldConfig t.distance (getSlowestUnit (selectTemplate s))

/-- The loop's `requiredSendTime`: `nextAllowedArrival - travelTime`, with
the last arrival read from this instance's arrival map (0 when absent). -/
def localRequiredSendTime (s : FarmServiceState) (t : FarmTarget) : ℚ :=
  (lookupArrival s.arrivals t.coords).getD 0 + FARM_TARGET_INTERVAL_MS - travelOf s t

/-- Send time of the plan the loop creates for a target: immediately when
the required send time has passed, else exactly the required send time. -/
def localPlannedSendTime (s : FarmServiceState) (t : FarmTarget) (now : ℚ) : ℚ :=
  if localRequiredSendTime s t ≤ now then now else localRequiredSendTime s t

/-- The attack plan record `scheduleAttack` pushes. -/
def mkPlanOf (t : FarmTarget) (v : Nat) (tmpl : FarmAttackTemplate)
    (travel send arr : ℚ) : FarmAttackPlan :=
  { targetId := toString t.villageId
    targetCoords := t.coords
    sourceVillageId := v
    template := tmpl.id
    sendTime := send
    arrivalTime := arr
    travelTimeMs := travel
    status := .pending }

/-- `SmartFarmService.scheduleAttack`: bail out without a source village id;
otherwise push the pending plan (recomputing the travel time from the
template) and pre-register the expected arrival in the local arrival map. -/
def scheduleAttack (s : FarmServiceState) (t : FarmTarget)
    (tmpl : FarmAttackTemplate) (sendTime arrivalTime : ℚ) : FarmServiceState :=
  match s.sourceVillageId with
  | none => s
  | some v =>
      { s with
        scheduledAttacks := s.scheduledAttacks ++
          [mkPlanOf t v tmpl
            (calculateTravelTimeMs s.worldConfig t.distance (getSlowestUnit tmpl))
            sendTime arrivalTime]
        arrivals := setArrival s.arrivals t.coords arrivalTime }

/-- Loop body of `checkAndScheduleAttacks` for one target: skip unavailable
targets; skip targets that already have a pending plan in this instance;
otherwise schedule either immediately (`requiredSendTime ≤ now`) or at
exactly `requiredSendTime`, pre-registering the expected arrival. -/
def processTarget (now : ℚ) (s : FarmServiceState) (t : FarmTarget) :
    FarmServiceState :=
  if t.status ≠ .available then s
  else if s.scheduledAttacks.any
      (fun a => a.targetCoords = t.coords ∧ a.status = .pending) then s
  else if localRequiredSendTime s t ≤ now then
    scheduleAttack s t (selectTemplate s) now (now + travelOf s t)
  else
    scheduleAttack s t (selectTemplate s) (localRequiredSendTime s t)
      (localRequiredSendTime s t + travelOf s t)

/-- `SmartFarmService.checkAndScheduleAttacks`: return unchanged when the
feature is disabled; replace the local arrival map with the one fetched from
the background (when that fetch succeeded), then run the loop over the
parsed targets. -/
def checkAndScheduleAttacks (bg : Option ArrivalMap) (now : ℚ)
    (s : FarmServiceState) : FarmServiceState :=
  if s.enabled = false then s
  else
    let s0 := { s with arrivals := match bg with | some m => m | none => s.arrivals }
    s0.targets.foldl (processTarget now) s0

/-- Number of pending plans for a target in a plan list. -/
def countPendingFor (plans : List FarmAttackPlan) (coords : String) : Nat :=
  (plans.filter (fun a => a.targetCoords = coords ∧ a.status = .pending)).length

/-! ## Shared farm state, from `FarmStateManager.ts` -/

/-- Background (cross-village) farm state. -/
structure FarmMgrState where
  arrivals : ArrivalMap
  scheduledAttacks : List FarmAttackPlan
  attacksSentToday : Nat
  lastAttackSent : Option ℚ
  deriving Repr

/-- `FarmStateManager.registerArrival`: overwrite the stored arrival only
when the new one is strictly later than the existing one (missing entries
read as 0); an accepted update also bumps the statistics. -/
def registerArrival (s : FarmMgrState) (targetCoords : String)
    (arrivalTime : ℚ) (now : ℚ) : FarmMgrState :=
  let existingArrival := (lookupArrival s.arrivals targetCoords).getD 0
  if existingArrival < arrivalTime then
    { s with
      arrivals := setArrival s.arrivals targetCoords arrivalTime
      lastAttackSent := some now
      attacksSentToday := s.attacksSentToday + 1 }
  else s

/-- The duplicate test of `FarmStateManager.addScheduledAttack`: an existing
pending plan for the same target from the same source village. -/
def pendingDuplicate (plans : List FarmAttackPlan) (attack : FarmAttackPlan) : Bool :=
  plans.any (fun a =>
    a.targetCoords = attack.targetCoords
    ∧ a.sourceVillageId = attack.sourceVillageId
    ∧ a.status = .pending)

/-- `FarmStateManager.addScheduledAttack`: drop the plan when the same
village already has a pending plan for the target; otherwise push it and
pre-register the arrival. -/
def addScheduledAttack (s : FarmMgrState) (attack : FarmAttackPlan) : FarmMgrState :=
  if pendingDuplicate s.scheduledAttacks attack then s
  else
    { s with
      scheduledAttacks := s.scheduledAttacks ++ [attack]
      arrivals := setArrival s.arrivals attack.targetCoords attack.arrivalTime }

/-- Mark the first pending plan for the given target and source village as
failed, in place (`attack.status = 'failed'` mutates the found element). -/
def failFirstPlan (coords : String) (village : Nat) :
    List FarmAttackPlan → List FarmAttackPlan
  | [] => []
  | a :: rest =>
      if a.targetCoords = coords ∧ a.sourceVillageId = village ∧ a.status = .pending
      then { a with status := .failed } :: rest
      else a :: failFirstPlan coords village rest

/-- `FarmStateManager.markAttackFailed`: when a pending plan for the target
and source village exists, fail it and delete the pre-registered arrival
record for the target. -/
def markAttackFailed (s : FarmMgrState) (targetCoords : String)
    (sourceVillageId : Nat) : FarmMgrState :=
  if s.scheduledAttacks.any (fun a =>
      a.targetCoords = targetCoords
      ∧ a.sourceVillageId = sourceVillageId
      ∧ a.status = .pending) then
    { s with
      scheduledAttacks := failFirstPlan targetCoords sourceVillageId s.scheduledAttacks
      arrivals := eraseArrival s.arrivals targetCoords }
  else s

/-- Number of pending plans for a target and source village. -/
def countPendingCV (plans : List FarmAttackPlan) (coords : String) (village : Nat) : Nat :=
  (plans.filter (fun a =>
    a.targetCoords = coords ∧ a.sourceVillageId = village ∧ a.status = .pending)).length

/-- Number of failed plans for a target and source village. -/
def countFailedCV (plans : List FarmAttackPlan) (coords : String) (village : Nat) : Nat :=
  (plans.filter (fun a =>
    a.targetCoords = coords ∧ a.sourceVillageId = village ∧ a.status = .failed)).length

/-! ## Specification-side derived quantities

These package the arithmetic the spec states for one target of one pass, so
the theorems below can name them; they are read off the same source
expressions as `processTarget`. -/

/-- Highest minutes-per-field among entries with a non-zero count. -/
def maxPosSpeed (l : List (UnitType × Nat)) : ℚ :=
  ((l.filter (fun p => 0 < p.2)).map (fun p => UNIT_SPEEDS p.1)).foldr max 0

/-- Minutes per field the spec assigns to a profile: the pre-declared
slowest unit if any, otherwise the highest speed value among units with a
non-zero count. -/
def slowestSpecSpeed (P : FarmAttackTemplate) : ℚ :=
  match P.slowestUnit with
  | some u => UNIT_SPEEDS u
  | none => maxPosSpeed P.units

/-- Required send time for a target, relative to the background arrivals the
pass synced: `nextAllowedArrival - travelTime`. -/
def requiredSendTimeOf (bg : ArrivalMap) (s : FarmServiceState) (t : FarmTarget) : ℚ :=
  (lookupArrival bg t.coords).getD 0 + FARM_TARGET_INTERVAL_MS - travelOf s t

/-- Send time of the plan the pass creates: immediately when the required
send time has passed, else exactly the required send time. -/
def plannedSendTime (bg : ArrivalMap) (s : FarmServiceState) (t : FarmTarget)
    (now : ℚ) : ℚ :=
  if requiredSendTimeOf bg s t ≤ now then now else requiredSendTimeOf bg s t

/-! ## Concrete inputs used by witnesses and counterexamples -/

/-- A queued farm-check task. -/
def tC1 : ScheduledTask :=
  { id := "task_1", type := "farm:check", villageId := 1, worldId := "en1"
    scheduledTime := 1000, priority := 5, retryCount := 0, maxRetries := 3
    payload := [], createdAt := 500 }

/-- A successful result for `tC1` carrying a follow-up time. -/
def rC1 : TaskResult :=
  { taskId := "task_1", success := true, error := none
    data := some [("resourcesGained", "120")], nextScheduledTime := some 60000 }

/-- Scheduler state holding exactly `tC1`. -/
def sC1 : SchedulerState :=
  { tasks := [tC1], lastActionTime := 0, processingTask := none }

/-- A completion result whose id matches nothing. -/
def rGhost : TaskResult :=
  { taskId := "ghost", success := true, error := none
    data := none, nextScheduledTime := none }

/-- Scheduler state with an empty queue. -/
def sEmpty : SchedulerState :=
  { tasks := [], lastActionTime := 0, processingTask := none }

/-- High-priority due task (priority 1). -/
def tHigh : ScheduledTask :=
  { id := "task_hi", type := "scavenge:start", villageId := 2, worldId := "en1"
    scheduledTime := 4000, priority := 1, retryCount := 0, maxRetries := 3
    payload := [], createdAt := 100 }

/-- Normal-priority due task (priority 5), scheduled earlier. -/
def tNorm : ScheduledTask :=
  { id := "task_no", type := "build:check", villageId := 2, worldId := "en1"
    scheduledTime := 1000, priority := 5, retryCount := 1, maxRetries := 3
    payload := [], createdAt := 100 }

/-- Scheduler state with both tasks due and the rate gate satisfied. -/
def sC4 : SchedulerState :=
  { tasks := [tNorm, tHigh], lastActionTime := 0, processingTask := none }

/-- A failure report for `tNorm`. -/
def rC5 : TaskResult :=
  { taskId := "task_no", success := false, error := some "timeout"
    data := none, nextScheduledTime := none }

/-- A farm target at distance 1/2 from the source village. -/
def tgtW : FarmTarget :=
  { villageId := 777, coords := "500|500", x := 500, y := 500
    distance := 1/2, wallLevel := some 0, lastAttacked := none
    status := .available }

/-- A template whose pre-declared slowest unit is light cavalry
(10 minutes per field). -/
def tmplLight : FarmAttackTemplate :=
  { id := .A, units := [(.light, 5)], slowestUnit := some .light }

/-- Farm service state of source village 1 about to examine `tgtW`. -/
def svcV1 : FarmServiceState :=
  { targets := [tgtW], scheduledAttacks := [], arrivals := []
    sourceVillageId := some 1, templateA := some tmplLight, templateB := none
    worldConfig := none, enabled := true }

/-- The same service state for source village 2. -/
def svcV2 : FarmServiceState :=
  { svcV1 with sourceVillageId := some 2 }

/-- Background arrivals recording a last arrival at epoch 10^12 for `tgtW`. -/
def bgW : ArrivalMap := [("500|500", 1000000000000)]

/-- A pending background plan of village 1 against `tgtW`. -/
def planW : FarmAttackPlan :=
  { targetId := "777", targetCoords := "500|500", sourceVillageId := 1
    template := .A, sendTime := 1000, arrivalTime := 301000
    travelTimeMs := 300000, status := .pending }

/-- Background farm state holding exactly `planW` with its pre-registered
arrival. -/
def mgrW : FarmMgrState :=
  { arrivals := [("500|500", 301000)], scheduledAttacks := [planW]
    attacksSentToday := 1, lastAttackSent := some 1000 }

/-- Freshly initialised background farm state. -/
def mgrEmpty : FarmMgrState :=
  { arrivals := [], scheduledAttacks := [], attacksSentToday := 0
    lastAttackSent := none }

/-! ## Basic queue lemmas -/

lemma getTaskById_removeTaskQ (tasks : List ScheduledTask) (taskId : String) :
    getTaskById (removeTaskQ tasks taskId) taskId = none := by
  unfold getTaskById removeTaskQ
  rw [List.find?_eq_none]
  intro t ht
  have h := List.of_mem_filter ht
  simp only [decide_eq_true_eq] at h ⊢
  exact h

lemma removeTaskQ_eq_self (tasks : List ScheduledTask) (taskId : String)
    (h : ∀ t ∈ tasks, t.id ≠ taskId) : removeTaskQ tasks taskId = tasks := by
  unfold removeTaskQ
  apply List.filter_eq_self.mpr
  intro t ht
  simpa using h t ht

lemma getTaskById_eq_none (tasks : List ScheduledTask) (taskId : String)
    (h : ∀ t ∈ tasks, t.id ≠ taskId) : getTaskById tasks taskId = none := by
  unfold getTaskById
  rw [List.find?_eq_none]
  intro t ht
  simpa using h t ht

/-- What `completeTask` always computes: the follow-up branch looks the task
up after it was already removed, so it never fires and the whole operation
reduces to remove + clock update + slot clearing — on every input. -/
lemma completeTask_eq (s : SchedulerState) (r : TaskResult) (now : Nat)
    (newId : String) :
    completeTask s r now newId =
      { tasks := removeTaskQ s.tasks r.taskId
        lastActionTime := now
        processingTask := clearProcessingIfMatch s.processingTask r.taskId } := by
  unfold completeTask
  simp only [getTaskById_removeTaskQ]
  split <;> rfl

/-- Claim C1: for a successful task completion carrying a
`nextScheduledTime`, `completeTask` removes the completed task and sets the
global action time, but the promised follow-up task is never enqueued: the
original task is looked up only after it has been removed from the queue, so
the follow-up branch is dead code.  Evaluated at a concrete failing input:
the queue holding exactly the completed task ends up empty, with no
follow-up scheduled at the result's `nextScheduledTime`. -/
theorem completeTask_drops_followup :
    sC1.tasks = [tC1]
    ∧ rC1.taskId = tC1.id
    ∧ rC1.success = true
    ∧ rC1.nextScheduledTime = some 60000
    ∧ (completeTask sC1 rC1 2000 "task_2").tasks = []
    ∧ (completeTask sC1 rC1 2000 "task_2").lastActionTime = 2000 := by
  refine ⟨rfl, rfl, rfl, rfl, ?_, ?_⟩ <;> decide

/-- Claim C10: the reload routine always rebuilds in-memory state with
`isRunning = false` — whatever running flag the persisted blob carries — and
takes over every persisted task verbatim, so all tasks remain present and
orderable after a cold start. -/
theorem loadState_resets_running (store : PersistedStore) (now : Nat) :
    (loadState store now).isRunning = false
    ∧ (loadState store now).tasks = store.taskQueue.getD []
    ∧ (loadState store now).lastActionTime = store.lastActionTime.getD 0 := by
  exact ⟨rfl, rfl, rfl⟩

/-- Claim C9, counterexample: a completion message with an unknown task id
does not leave the scheduler state unchanged — `completeTask`
unconditionally sets `lastActionTime` to the current time, resetting the
global rate-limit clock. -/
theorem unknown_completion_not_ignored :
    (∀ t ∈ sEmpty.tasks, t.id ≠ rGhost.taskId)
    ∧ completeTask sEmpty rGhost 5000 "task_new" ≠ sEmpty
    ∧ (completeTask sEmpty rGhost 5000 "task_new").lastActionTime = 5000
    ∧ sEmpty.lastActionTime = 0 := by
  refine ⟨?_, ?_, ?_, ?_⟩ <;> decide

/-- Claim C9 as amended: a completion or failure message with an unknown
task id leaves the task queue unchanged, schedules no retry, enqueues no
follow-up, raises no notification and propagates no error; however
`completeTask` still sets `lastGlobalActionTime` to now, and either handler
clears the processing slot when it happens to hold the unknown id; a failure
message changes nothing else. -/
theorem unknown_task_message_spec (s : SchedulerState) (r : TaskResult)
    (now jitter : Nat) (newId : String)
    (hunknown : ∀ t ∈ s.tasks, t.id ≠ r.taskId) :
    (completeTask s r now newId).tasks = s.tasks
    ∧ (completeTask s r now newId).lastActionTime = now
    ∧ (completeTask s r now newId).processingTask
        = clearProcessingIfMatch s.processingTask r.taskId
    ∧ (failTask s r now jitter).1
        = { s with processingTask := clearProcessingIfMatch s.processingTask r.taskId }
    ∧ (failTask s r now jitter).2 = none := by
  have hrm := removeTaskQ_eq_self s.tasks r.taskId hunknown
  have hfind := getTaskById_eq_none s.tasks r.taskId hunknown
  refine ⟨?_, ?_, ?_, ?_, ?_⟩
  · rw [completeTask_eq]; exact hrm
  · rw [completeTask_eq]
  · rw [completeTask_eq]
  · unfold failTask
    rw [hfind]
    simp [hrm]
  · unfold failTask
    rw [hfind]

/-- Witness for the amended C9 statement at a concrete unknown-id message. -/
theorem unknown_task_message_spec_witness :
    (completeTask sEmpty rGhost 5000 "task_new").tasks = sEmpty.tasks
    ∧ (failTask sEmpty rGhost 5000 250).2 = none :=
  ⟨(unknown_task_message_spec sEmpty rGhost 5000 250 "task_new" (by decide)).1,
   (unknown_task_message_spec sEmpty rGhost 5000 250 "task_new" (by decide)).2.2.2.2⟩

/-! ## Ordering lemmas for `getNextTask` -/

lemma taskKeyLt_iff (a b : ScheduledTask) :
    taskKeyLt a b = true ↔
      a.priority < b.priority
      ∨ (a.priority = b.priority ∧ a.scheduledTime < b.scheduledTime) := by
  simp [taskKeyLt]

lemma taskKeyLt_irrefl (a : ScheduledTask) : taskKeyLt a a = false := by
  simp [taskKeyLt]

lemma taskKeyLt_asymm (a b : ScheduledTask) (h : taskKeyLt a b = true) :
    taskKeyLt b a = false := by
  rw [taskKeyLt_iff] at h
  rw [Bool.eq_false_iff]
  intro hba
  rw [taskKeyLt_iff] at hba
  omega

lemma taskKeyLt_trans (a b c : ScheduledTask) (h1 : taskKeyLt a b = true)
    (h2 : taskKeyLt b c = true) : taskKeyLt a c = true := by
  rw [taskKeyLt_iff] at h1 h2 ⊢
  omega

/-- Folding from a present accumulator keeps the result present, and the
result either is the accumulator or strictly beats it and came from the
list. -/
lemma selMin_fold_some (l : List ScheduledTask) (b : ScheduledTask) :
    ∃ c, l.foldl selMinStep (some b) = some c
      ∧ (c = b ∨ (taskKeyLt c b = true ∧ c ∈ l)) := by
  induction l generalizing b with
  | nil => exact ⟨b, rfl, Or.inl rfl⟩
  | cons t rest ih =>
      simp only [List.foldl_cons]
      cases hlt : taskKeyLt t b with
      | true =>
          obtain ⟨c, hc, hrel⟩ := ih t
          refine ⟨c, ?_, ?_⟩
          · simpa [selMinStep, hlt] using hc
          · rcases hrel with rfl | ⟨hlt2, hmem⟩
            · exact Or.inr ⟨hlt, List.mem_cons_self _ _⟩
            · exact Or.inr ⟨taskKeyLt_trans _ _ _ hlt2 hlt, List.mem_cons_of_mem _ hmem⟩
      | false =>
          obtain ⟨c, hc, hrel⟩ := ih b
          refine ⟨c, ?_, ?_⟩
          · simpa [selMinStep, hlt] using hc
          · rcases hrel with rfl | ⟨hlt2, hmem⟩
            · exact Or.inl rfl
            · exact Or.inr ⟨hlt2, List.mem_cons_of_mem _ hmem⟩

/-- The selected task is a member of the list. -/
lemma selectFirstMin_mem (l : List ScheduledTask) (t : ScheduledTask)
    (h : selectFirstMin l = some t) : t ∈ l := by
  cases l with
  | nil => simp [selectFirstMin] at h
  | cons a rest =>
      unfold selectFirstMin at h
      simp only [List.foldl_cons, selMinStep] at h
      obtain ⟨c, hc, hrel⟩ := selMin_fold_some rest a
      rw [hc] at h
      cases h
      rcases hrel with rfl | ⟨_, hmem⟩
      · exact List.mem_cons_self _ _
      · exact List.mem_cons_of_mem _ hmem

/-- A nonempty list yields a selection. -/
lemma selectFirstMin_isSome (l : List ScheduledTask) (h : l ≠ []) :
    (selectFirstMin l).isSome := by
  cases l with
  | nil => exact absurd rfl h
  | cons a rest =>
      unfold selectFirstMin
      simp only [List.foldl_cons, selMinStep]
      obtain ⟨c, hc, _⟩ := selMin_fold_some rest a
      rw [hc]
      rfl

/-- No element of the list strictly beats the selected task. -/
lemma selectFirstMin_min (l : List ScheduledTask) (res : ScheduledTask) :
    ∀ acc, l.foldl selMinStep acc = some res →
      (∀ b, acc = some b → taskKeyLt res b = true ∨ res = b) →
      ∀ u ∈ l, taskKeyLt u res = false := by
  induction l with
  | nil => intro acc _ _ u hu; simp at hu
  | cons t rest ih =>
      intro acc hres hacc u hu
      simp only [List.foldl_cons] at hres
      have hstep : ∃ c, selMinStep acc t = some c ∧ taskKeyLt t c = false := by
        cases acc with
        | none => exact ⟨t, rfl, taskKeyLt_irrefl t⟩
        | some b =>
            cases hlt : taskKeyLt t b with
            | true => exact ⟨t, by simp [selMinStep, hlt], taskKeyLt_irrefl t⟩
            | false => exact ⟨b, by simp [selMinStep, hlt], hlt⟩
      obtain ⟨c, hc, htc⟩ := hstep
      rw [hc] at hres
      have hrel : taskKeyLt res c = true ∨ res = c := by
        obtain ⟨c2, hc2, hrel2⟩ := selMin_fold_some rest c
        rw [hc2] at hres
        cases hres
        rcases hrel2 with rfl | ⟨hlt2, _⟩
        · exact Or.inr rfl
        · exact Or.inl hlt2
      rcases List.mem_cons.mp hu with rfl | humem
      · rcases hrel with hlt2 | rfl
        · rw [Bool.eq_false_iff]
          intro hur
          have := taskKeyLt_trans _ _ _ hur hlt2
          rw [this] at htc
          cases htc
        · exact htc
      · exact ih (some c) hres (by
          intro b hb
          cases hb
          exact hrel) u humem

/-- Claim C4: `getNextTask` returns a task exactly when no task is marked
processing, the global rate gate `now - lastGlobalActionTime ≥
minActionDelay` is satisfied, and some task is due; the returned task is a
due task that is lexicographically least under (priority ascending,
scheduled time ascending) among all due tasks.  In every other situation it
returns none — in particular never while a task is processing and never
inside the minimum action delay. -/
theorem getNextTask_spec (s : SchedulerState) (now : Nat) :
    (s.processingTask.isSome → getNextTask s now = none)
    ∧ (now - s.lastActionTime < MIN_ACTION_DELAY_MS → getNextTask s now = none)
    ∧ (∀ t, getNextTask s now = some t →
        s.processingTask = none
        ∧ MIN_ACTION_DELAY_MS ≤ now - s.lastActionTime
        ∧ t ∈ s.tasks ∧ t.scheduledTime ≤ now
        ∧ ∀ u ∈ s.tasks, u.scheduledTime ≤ now →
            t.priority < u.priority
            ∨ (t.priority = u.priority ∧ t.scheduledTime ≤ u.scheduledTime))
    ∧ (s.processingTask = none → MIN_ACTION_DELAY_MS ≤ now - s.lastActionTime →
        (∃ u ∈ s.tasks, u.scheduledTime ≤ now) → (getNextTask s now).isSome) := by
  refine ⟨?_, ?_, ?_, ?_⟩
  · intro h
    unfold getNextTask
    rw [if_pos h]
  · intro h
    unfold getNextTask
    by_cases hp : s.processingTask.isSome
    · rw [if_pos hp]
    · rw [if_neg hp, if_pos h]
  · intro t ht
    unfold getNextTask at ht
    by_cases hp : s.processingTask.isSome
    · rw [if_pos hp] at ht; cases ht
    · rw [if_neg hp] at ht
      by_cases hd : now - s.lastActionTime < MIN_ACTION_DELAY_MS
      · rw [if_pos hd] at ht; cases ht
      · rw [if_neg hd] at ht
        have hmem := selectFirstMin_mem _ _ ht
        have hdue := List.of_mem_filter hmem
        have hmem2 := List.mem_of_mem_filter hmem
        have hmin := selectFirstMin_min _ _ none ht (by intro b hb; cases hb)
        refine ⟨Option.not_isSome_iff_eq_none.mp hp, Nat.le_of_not_lt hd,
          hmem2, by simpa using hdue, ?_⟩
        intro u humem hudue
        have hu : u ∈ s.tasks.filter (fun x => x.scheduledTime ≤ now) := by
          apply List.mem_filter.mpr
          exact ⟨humem, by simpa using hudue⟩
        have hfalse := hmin u hu
        have hnot : ¬ (u.priority < t.priority
            ∨ (u.priority = t.priority ∧ u.scheduledTime < t.scheduledTime)) := by
          rw [← taskKeyLt_iff, hfalse]
          simp
        omega
  · intro hp hd ⟨u, humem, hudue⟩
    unfold getNextTask
    rw [if_neg (by rw [hp]; simp)]
    rw [if_neg (Nat.not_lt.mpr hd)]
    apply selectFirstMin_isSome
    intro hnil
    have : u ∈ s.tasks.filter (fun x => x.scheduledTime ≤ now) := by
      apply List.mem_filter.mpr
      exact ⟨humem, by simpa using hudue⟩
    rw [hnil] at this
    cases this

/-- Witness for C4 at a concrete two-task queue: the high-priority task is
selected and beats the earlier-scheduled normal-priority task. -/
theorem getNextTask_spec_witness :
    getNextTask sC4 5000 = some tHigh
    ∧ (tHigh ∈ sC4.tasks ∧ tHigh.scheduledTime ≤ 5000) :=
  ⟨by decide,
   by
    have h := (getNextTask_spec sC4 5000).2.2.1 tHigh (by decide)
    exact ⟨h.2.2.1, h.2.2.2.1⟩⟩

/-! ## Lemmas for `failTask` -/

/-- Two queued tasks with the same id coincide when queue ids are unique. -/
lemma eq_of_mem_same_id (l : List ScheduledTask)
    (hnodup : (l.map (fun t => t.id)).Nodup)
    (a b : ScheduledTask) (ha : a ∈ l) (hb : b ∈ l) (hid : a.id = b.id) :
    a = b :=
  List.inj_on_of_nodup_map hnodup ha hb hid

/-- Claim C5: `failTask` on a queued task either retries or terminates it.
While `retryCount < maxRetries` the task is kept with its retry count
incremented and rescheduled at `now + minActionDelay * (retryCount + 1) +
jitter`, every other task is untouched and no notification is raised;
otherwise the task is removed permanently and a terminal-failure
notification carrying its type and village is emitted, and no task with its
id remains.  In both cases the invariant `retryCount ≤ maxRetries` is
preserved for every queued task, and a removed task can never be retried
again. -/
theorem failTask_spec (s : SchedulerState) (r : TaskResult) (now jitter : Nat)
    (task : ScheduledTask)
    (hfind : getTaskById s.tasks r.taskId = some task)
    (hnodup : (s.tasks.map (fun t => t.id)).Nodup) :
    (task.retryCount < task.maxRetries →
        (failTask s r now jitter).2 = none
        ∧ { task with
              retryCount := task.retryCount + 1
              scheduledTime := now + MIN_ACTION_DELAY_MS * (task.retryCount + 1) + jitter }
            ∈ (failTask s r now jitter).1.tasks
        ∧ ∀ t ∈ s.tasks, t.id ≠ task.id → t ∈ (failTask s r now jitter).1.tasks)
    ∧ (task.maxRetries ≤ task.retryCount →
        (failTask s r now jitter).2
          = some { taskType := task.type, villageId := task.villageId
                   message := r.error.getD "Unknown error" }
        ∧ ∀ t ∈ (failTask s r now jitter).1.tasks, t.id ≠ r.taskId)
    ∧ ((∀ t ∈ s.tasks, t.retryCount ≤ t.maxRetries) →
        ∀ t ∈ (failTask s r now jitter).1.tasks, t.retryCount ≤ t.maxRetries) := by
  have htmem : task ∈ s.tasks := by
    have := List.find?_some hfind
    exact List.mem_of_find?_eq_some hfind
  have htid : task.id = r.taskId := by
    have := List.find?_some hfind
    simpa using this
  refine ⟨?_, ?_, ?_⟩
  · intro hretry
    unfold failTask
    simp only [hfind, if_pos hretry]
    refine ⟨trivial, ?_, ?_⟩
    · have h1 : (fun t => if t.id = task.id then
          { t with
            retryCount := t.retryCount + 1
            scheduledTime := now + MIN_ACTION_DELAY_MS * (t.retryCount + 1) + jitter }
          else t) task
          = { task with
              retryCount := task.retryCount + 1
              scheduledTime := now + MIN_ACTION_DELAY_MS * (task.retryCount + 1) + jitter } := by
        simp
      rw [← h1]
      exact List.mem_map_of_mem _ htmem
    · intro t htm hne
      have h1 : (fun t => if t.id = task.id then
          { t with
            retryCount := t.retryCount + 1
            scheduledTime := now + MIN_ACTION_DELAY_MS * (t.retryCount + 1) + jitter }
          else t) t = t := by
        simp [hne]
      rw [← h1]
      exact List.mem_map_of_mem _ htm
  · intro hdone
    unfold failTask
    simp only [hfind, if_neg (Nat.not_lt.mpr hdone)]
    refine ⟨trivial, ?_⟩
    intro t htm
    have := List.of_mem_filter htm
    simpa using this
  · intro hinv
    unfold failTask
    simp only [hfind]
    by_cases hretry : task.retryCount < task.maxRetries
    · simp only [if_pos hretry]
      intro t htm
      obtain ⟨u, humem, hu⟩ := List.mem_map.mp htm
      by_cases hid : u.id = task.id
      · have hut : u = task := eq_of_mem_same_id s.tasks hnodup u task humem htmem hid
        rw [if_pos hid] at hu
        subst hut
        rw [← hu]
        simpa using hretry
      · rw [if_neg hid] at hu
        rw [← hu]
        exact hinv u humem
    · simp only [if_neg hretry]
      intro t htm
      exact hinv t (List.mem_of_mem_filter htm)

/-- Witness for C5: failing `tNorm` (1 of 3 retries used) keeps it queued
with retry count 2 and backoff 1000*2 plus jitter 250 from now=10000. -/
theorem failTask_spec_witness :
    (failTask sC4 rC5 10000 250).2 = none
    ∧ { tNorm with retryCount := 2, scheduledTime := 10000 + 1000 * 2 + 250 }
        ∈ (failTask sC4 rC5 10000 250).1.tasks := by
  have h := (failTask_spec sC4 rC5 10000 250 tNorm (by decide) (by decide)).1 (by decide)
  exact ⟨h.1, by simpa [MIN_ACTION_DELAY_MS] using h.2.1⟩

/-! ## Arrival-map lemmas -/

lemma lookupArrival_setArrival_self (ar : ArrivalMap) (c : String) (t : ℚ) :
    lookupArrival (setArrival ar c t) c = some t := by
  induction ar with
  | nil => simp [setArrival, lookupArrival, List.find?]
  | cons p rest ih =>
      by_cases h : p.1 = c
      · simp [setArrival, h, lookupArrival, List.find?]
      · simp only [setArrival, if_neg h]
        simpa [lookupArrival, List.find?, h] using ih

lemma lookupArrival_setArrival_ne (ar : ArrivalMap) (c c2 : String) (t : ℚ)
    (h : c2 ≠ c) : lookupArrival (setArrival ar c t) c2 = lookupArrival ar c2 := by
  have hcc : c ≠ c2 := Ne.symm h
  induction ar with
  | nil => simp [setArrival, lookupArrival, List.find?, hcc]
  | cons p rest ih =>
      by_cases hp : p.1 = c
      · simp [setArrival, hp, lookupArrival, List.find?, hcc]
      · simp only [setArrival, if_neg hp]
        by_cases hp2 : p.1 = c2
        · simp [lookupArrival, List.find?, hp2]
        · simpa [lookupArrival, List.find?, hp2] using ih

lemma lookupArrival_eraseArrival_self (ar : ArrivalMap) (c : String) :
    lookupArrival (eraseArrival ar c) c = none := by
  unfold lookupArrival eraseArrival
  rw [Option.map_eq_none']
  rw [List.find?_eq_none]
  intro p hp
  have h := List.of_mem_filter hp
  simp only [decide_eq_true_eq] at h ⊢
  intro he
  exact h he

/-- Claim C3: arrival records are monotone.  Starting from a target with no
record, two updates with timestamps `a` then `b` leave the stored value at
`max a b`; in general an update leaves the state unchanged unless its
timestamp is strictly later than the stored one (missing entries read as 0),
in which case it replaces it. -/
theorem registerArrival_monotone (s : FarmMgrState) (c : String)
    (a b now1 now2 : ℚ) (ha : 0 ≤ a) (hb : 0 ≤ b)
    (hnone : lookupArrival s.arrivals c = none) :
    ((lookupArrival (registerArrival (registerArrival s c a now1) c b now2).arrivals c).getD 0
        = max a b)
    ∧ (∀ s2 : FarmMgrState, ∀ t nowx : ℚ,
        t ≤ (lookupArrival s2.arrivals c).getD 0 → registerArrival s2 c t nowx = s2)
    ∧ (∀ s2 : FarmMgrState, ∀ t nowx : ℚ,
        (lookupArrival s2.arrivals c).getD 0 < t →
          (lookupArrival (registerArrival s2 c t nowx).arrivals c).getD 0 = t) := by
  refine ⟨?_, ?_, ?_⟩
  · by_cases hpa : 0 < a
    · have h1 : registerArrival s c a now1
          = { s with arrivals := setArrival s.arrivals c a
                     lastAttackSent := some now1
                     attacksSentToday := s.attacksSentToday + 1 } := by
        unfold registerArrival
        rw [hnone]
        simp [hpa]
      rw [h1]
      by_cases hab : a < b
      · have h2 : (lookupArrival (setArrival s.arrivals c a) c).getD 0 = a := by
          rw [lookupArrival_setArrival_self]; rfl
        unfold registerArrival
        simp only [h2, if_pos hab]
        show (lookupArrival (setArrival (setArrival s.arrivals c a) c b) c).getD 0 = max a b
        rw [lookupArrival_setArrival_self]
        simp only [Option.getD_some]
        exact (max_eq_right (le_of_lt hab)).symm
      · have h2 : (lookupArrival (setArrival s.arrivals c a) c).getD 0 = a := by
          rw [lookupArrival_setArrival_self]; rfl
        unfold registerArrival
        simp only [h2, if_neg hab]
        exact (max_eq_left (le_of_not_lt hab)).symm
    · have ha0 : a = 0 := le_antisymm (le_of_not_lt hpa) ha
      have h1 : registerArrival s c a now1 = s := by
        unfold registerArrival
        rw [hnone]
        simp [ha0]
      rw [h1]
      by_cases hpb : 0 < b
      · unfold registerArrival
        rw [hnone]
        simp only [Option.getD_none, if_pos hpb]
        show (lookupArrival (setArrival s.arrivals c b) c).getD 0 = max a b
        rw [lookupArrival_setArrival_self]
        simp only [Option.getD_some]
        rw [ha0]
        exact (max_eq_right hb).symm
      · have hb0 : b = 0 := le_antisymm (le_of_not_lt hpb) hb
        unfold registerArrival
        rw [hnone]
        simp [hb0, ha0, hnone]
  · intro s2 t nowx hle
    unfold registerArrival
    rw [if_neg (not_lt.mpr hle)]
  · intro s2 t nowx hlt
    unfold registerArrival
    rw [if_pos hlt]
    show (lookupArrival (setArrival s2.arrivals c t) c).getD 0 = t
    rw [lookupArrival_setArrival_self]
    rfl

/-- Witness for C3: from an empty record, updates 100 then 50 leave the
stored arrival at 100 = max(100, 50). -/
theorem registerArrival_monotone_witness :
    (lookupArrival (registerArrival (registerArrival mgrEmpty "500|500" 100 1)
        "500|500" 50 2).arrivals "500|500").getD 0 = max (100 : ℚ) 50
    ∧ max (100 : ℚ) 50 = 100 :=
  ⟨(registerArrival_monotone mgrEmpty "500|500" 100 50 1 2 (by norm_num) (by norm_num)
      (by decide)).1,
   by norm_num⟩

/-! ## Plan-list lemmas for `markAttackFailed` -/

lemma countPendingCV_pos_any (l : List FarmAttackPlan) (c : String) (v : Nat)
    (h : countPendingCV l c v ≠ 0) :
    l.any (fun a =>
      a.targetCoords = c ∧ a.sourceVillageId = v ∧ a.status = .pending) = true := by
  unfold countPendingCV at h
  obtain ⟨a, ha⟩ := List.exists_mem_of_length_pos (Nat.pos_of_ne_zero h)
  have hmem := List.mem_of_mem_filter ha
  have hpred := List.of_mem_filter ha
  exact List.any_eq_true.mpr ⟨a, hmem, hpred⟩

lemma countPendingCV_zero_not_any (l : List FarmAttackPlan) (c : String) (v : Nat)
    (h : countPendingCV l c v = 0) :
    l.any (fun a =>
      a.targetCoords = c ∧ a.sourceVillageId = v ∧ a.status = .pending) = false := by
  rw [Bool.eq_false_iff]
  intro hany
  obtain ⟨a, hmem, hpred⟩ := List.any_eq_true.mp hany
  have : a ∈ l.filter (fun a => decide
      (a.targetCoords = c ∧ a.sourceVillageId = v ∧ a.status = PlanStatus.pending)) :=
    List.mem_filter.mpr ⟨hmem, hpred⟩
  unfold countPendingCV at h
  rw [List.length_eq_zero] at h
  rw [h] at this
  cases this

lemma failFirstPlan_counts (l : List FarmAttackPlan) (c : String) (v : Nat)
    (h : countPendingCV l c v ≠ 0) :
    countPendingCV (failFirstPlan c v l) c v = countPendingCV l c v - 1
    ∧ countFailedCV (failFirstPlan c v l) c v = countFailedCV l c v + 1 := by
  induction l with
  | nil => simp [countPendingCV] at h
  | cons a rest ih =>
      by_cases hp : a.targetCoords = c ∧ a.sourceVillageId = v
          ∧ a.status = PlanStatus.pending
      · unfold failFirstPlan
        rw [if_pos hp]
        unfold countPendingCV countFailedCV
        simp only [List.filter_cons]
        split_ifs <;> simp_all
      · unfold failFirstPlan
        rw [if_neg hp]
        have hrest : countPendingCV rest c v ≠ 0 := by
          unfold countPendingCV at h ⊢
          rw [List.filter_cons] at h
          rw [if_neg (by simpa using hp)] at h
          exact h
        obtain ⟨hih1, hih2⟩ := ih hrest
        have hpos : countPendingCV rest c v ≠ 0 := hrest
        unfold countPendingCV at hih1 hpos
        unfold countFailedCV at hih2
        unfold countPendingCV countFailedCV
        simp only [List.filter_cons]
        split_ifs with h1 h2 <;> simp_all

/-- Claim C8: failing the dispatch of a pending plan marks that plan failed
and rolls back the target's pre-registered Arrival Record entry (the map
entry is deleted), after which the same village can immediately register a
fresh pending plan for the target — `addScheduledAttack` no longer sees a
pending duplicate. -/
theorem markAttackFailed_spec (s : FarmMgrState) (c : String) (v : Nat)
    (h1 : countPendingCV s.scheduledAttacks c v = 1) :
    lookupArrival (markAttackFailed s c v).arrivals c = none
    ∧ countPendingCV (markAttackFailed s c v).scheduledAttacks c v = 0
    ∧ countFailedCV (markAttackFailed s c v).scheduledAttacks c v
        = countFailedCV s.scheduledAttacks c v + 1
    ∧ ∀ p : FarmAttackPlan, p.targetCoords = c → p.sourceVillageId = v →
        p.status = .pending →
        (addScheduledAttack (markAttackFailed s c v) p).scheduledAttacks
          = (markAttackFailed s c v).scheduledAttacks ++ [p] := by
  have hany := countPendingCV_pos_any s.scheduledAttacks c v (by omega)
  have hmk : markAttackFailed s c v
      = { s with scheduledAttacks := failFirstPlan c v s.scheduledAttacks
                 arrivals := eraseArrival s.arrivals c } := by
    unfold markAttackFailed
    rw [if_pos hany]
  have hcounts := failFirstPlan_counts s.scheduledAttacks c v (by omega)
  have hzero : countPendingCV (failFirstPlan c v s.scheduledAttacks) c v = 0 := by
    rw [hcounts.1, h1]
  refine ⟨?_, ?_, ?_, ?_⟩
  · rw [hmk]
    exact lookupArrival_eraseArrival_self s.arrivals c
  · rw [hmk]
    exact hzero
  · rw [hmk]
    exact hcounts.2
  · intro p hc hv hst
    rw [hmk]
    unfold addScheduledAttack pendingDuplicate
    simp only [hc, hv]
    rw [if_neg (by
      rw [countPendingCV_zero_not_any _ c v hzero]
      simp)]

/-- Witness for C8: failing village 1's only pending plan against
(500|500) deletes the arrival entry and leaves no pending plan. -/
theorem markAttackFailed_spec_witness :
    lookupArrival (markAttackFailed mgrW "500|500" 1).arrivals "500|500" = none
    ∧ countPendingCV (markAttackFailed mgrW "500|500" 1).scheduledAttacks "500|500" 1 = 0 :=
  ⟨(markAttackFailed_spec mgrW "500|500" 1 (by decide)).1,
   (markAttackFailed_spec mgrW "500|500" 1 (by decide)).2.1⟩

/-! ## Slowest-unit and travel-time lemmas -/

lemma UNIT_SPEEDS_ge_nine (u : UnitType) : (9 : ℚ) ≤ UNIT_SPEEDS u := by
  cases u <;> norm_num [UNIT_SPEEDS]

lemma maxPosSpeed_cons_pos (p : UnitType × Nat) (rest : List (UnitType × Nat))
    (hpos : 0 < p.2) :
    maxPosSpeed (p :: rest) = max (UNIT_SPEEDS p.1) (maxPosSpeed rest) := by
  unfold maxPosSpeed
  rw [List.filter_cons, if_pos (by simpa using hpos)]
  rfl

lemma maxPosSpeed_cons_neg (p : UnitType × Nat) (rest : List (UnitType × Nat))
    (hpos : ¬ 0 < p.2) : maxPosSpeed (p :: rest) = maxPosSpeed rest := by
  unfold maxPosSpeed
  rw [List.filter_cons, if_neg (by simpa using hpos)]

lemma maxPosSpeed_nonneg (l : List (UnitType × Nat)) : 0 ≤ maxPosSpeed l := by
  induction l with
  | nil => norm_num [maxPosSpeed]
  | cons p rest ih =>
      by_cases hpos : 0 < p.2
      · rw [maxPosSpeed_cons_pos p rest hpos]
        exact le_trans ih (le_max_right _ _)
      · rw [maxPosSpeed_cons_neg p rest hpos]
        exact ih

lemma le_maxPosSpeed (l : List (UnitType × Nat)) (p : UnitType × Nat)
    (hmem : p ∈ l) (hpos : 0 < p.2) : UNIT_SPEEDS p.1 ≤ maxPosSpeed l := by
  induction l with
  | nil => cases hmem
  | cons q rest ih =>
      rcases List.mem_cons.mp hmem with rfl | hmem2
      · rw [maxPosSpeed_cons_pos p rest hpos]
        exact le_max_left _ _
      · by_cases hq : 0 < q.2
        · rw [maxPosSpeed_cons_pos q rest hq]
          exact le_trans (ih hmem2) (le_max_right _ _)
        · rw [maxPosSpeed_cons_neg q rest hq]
          exact ih hmem2

lemma slowFold_snd (l : List (UnitType × Nat)) (acc : UnitType × ℚ)
    (h : 0 ≤ acc.2) :
    (l.foldl slowUnitStep acc).2 = max acc.2 (maxPosSpeed l) := by
  induction l generalizing acc with
  | nil =>
      simp only [List.foldl_nil]
      rw [show maxPosSpeed [] = 0 from rfl]
      exact (max_eq_left h).symm
  | cons p rest ih =>
      simp only [List.foldl_cons]
      by_cases hpos : 0 < p.2
      · by_cases hlt : acc.2 < UNIT_SPEEDS p.1
        · rw [show slowUnitStep acc p = (p.1, UNIT_SPEEDS p.1) from
            by unfold slowUnitStep; rw [if_pos ⟨hpos, hlt⟩]]
          rw [ih (p.1, UNIT_SPEEDS p.1) (le_trans (by norm_num) (UNIT_SPEEDS_ge_nine p.1))]
          rw [maxPosSpeed_cons_pos p rest hpos]
          exact (max_eq_right (le_trans (le_of_lt hlt) (le_max_left _ _))).symm
        · rw [show slowUnitStep acc p = acc from
            by unfold slowUnitStep; rw [if_neg (by intro hc; exact hlt hc.2)]]
          rw [ih acc h, maxPosSpeed_cons_pos p rest hpos, ← max_assoc,
            max_eq_left (le_of_not_lt hlt)]
      · rw [show slowUnitStep acc p = acc from
          by unfold slowUnitStep; rw [if_neg (by intro hc; exact hpos hc.1)]]
        rw [ih acc h, maxPosSpeed_cons_neg p rest hpos]

lemma slowFold_fst (l : List (UnitType × Nat)) (acc : UnitType × ℚ)
    (h0 : 0 ≤ acc.2)
    (h : UNIT_SPEEDS acc.1 = acc.2 ∨ acc.2 < maxPosSpeed l) :
    UNIT_SPEEDS (l.foldl slowUnitStep acc).1 = (l.foldl slowUnitStep acc).2 := by
  induction l generalizing acc with
  | nil =>
      rcases h with h | h
      · exact h
      · rw [show maxPosSpeed [] = 0 from rfl] at h
        exact absurd h (not_lt.mpr h0)
  | cons p rest ih =>
      simp only [List.foldl_cons]
      by_cases hpos : 0 < p.2
      · by_cases hlt : acc.2 < UNIT_SPEEDS p.1
        · rw [show slowUnitStep acc p = (p.1, UNIT_SPEEDS p.1) from
            by unfold slowUnitStep; rw [if_pos ⟨hpos, hlt⟩]]
          exact ih (p.1, UNIT_SPEEDS p.1)
            (le_trans (by norm_num) (UNIT_SPEEDS_ge_nine p.1)) (Or.inl rfl)
        · rw [show slowUnitStep acc p = acc from
            by unfold slowUnitStep; rw [if_neg (by intro hc; exact hlt hc.2)]]
          rcases h with h | h
          · exact ih acc h0 (Or.inl h)
          · rw [maxPosSpeed_cons_pos p rest hpos] at h
            rcases lt_max_iff.mp h with h2 | h2
            · exact absurd h2 hlt
            · exact ih acc h0 (Or.inr h2)
      · rw [show slowUnitStep acc p = acc from
          by unfold slowUnitStep; rw [if_neg (by intro hc; exact hpos hc.1)]]
        rcases h with h | h
        · exact ih acc h0 (Or.inl h)
        · rw [maxPosSpeed_cons_neg p rest hpos] at h
          exact ih acc h0 (Or.inr h)

/-- The scanned slowest unit realises the spec's speed: the pre-declared
unit when present, else the maximal speed among positive-count entries. -/
lemma getSlowestUnit_speed (P : FarmAttackTemplate)
    (h : P.slowestUnit.isSome ∨ ∃ p ∈ P.units, 0 < p.2) :
    UNIT_SPEEDS (getSlowestUnit P) = slowestSpecSpeed P := by
  cases hsu : P.slowestUnit with
  | some u => simp [getSlowestUnit, slowestSpecSpeed, hsu]
  | none =>
      rcases h with hs | ⟨p, hmem, hpos⟩
      · rw [hsu] at hs; cases hs
      · unfold getSlowestUnit slowestSpecSpeed
        rw [hsu]
        have hM : 0 < maxPosSpeed P.units :=
          lt_of_lt_of_le (by norm_num)
            (le_trans (UNIT_SPEEDS_ge_nine p.1) (le_maxPosSpeed P.units p hmem hpos))
        have hfst := slowFold_fst P.units (UnitType.spy, 0) (le_refl 0) (Or.inr hM)
        have hsnd := slowFold_snd P.units (UnitType.spy, 0) (le_refl 0)
        rw [hfst, hsnd]
        exact max_eq_right (le_of_lt hM)

/-- Claim C6: the computed travel time is
`distance * s / (worldSpeed * unitSpeedModifier) * 60 * 1000` where `s` is
the minutes-per-field of the profile's slowest unit — the pre-declared one
when the profile names it, otherwise the highest minutes-per-field among
units with a non-zero count. -/
theorem calculateTravelTimeMs_spec (cfg : Option WorldCfg) (d : ℚ)
    (P : FarmAttackTemplate)
    (h : P.slowestUnit.isSome ∨ ∃ p ∈ P.units, 0 < p.2) :
    calculateTravelTimeMs cfg d (getSlowestUnit P)
      = d * slowestSpecSpeed P / (effWorldSpeed cfg * effUnitModifier cfg)
          * 60 * 1000 := by
  unfold calculateTravelTimeMs
  rw [getSlowestUnit_speed P h]

/-- Witness for C6: distance 10, slowest unit speed 10 (light cavalry),
world speed 1, modifier 1 yields exactly 6,000,000 ms. -/
theorem calculateTravelTimeMs_spec_witness :
    calculateTravelTimeMs none 10 (getSlowestUnit tmplLight)
      = 10 * slowestSpecSpeed tmplLight
          / (effWorldSpeed none * effUnitModifier none) * 60 * 1000
    ∧ calculateTravelTimeMs none 10 (getSlowestUnit tmplLight) = 6000000 :=
  ⟨calculateTravelTimeMs_spec none 10 tmplLight (Or.inl rfl),
   by norm_num [calculateTravelTimeMs, getSlowestUnit, tmplLight, UNIT_SPEEDS,
     effWorldSpeed, effUnitModifier]⟩

/-! ## Lemmas for the scheduling pass -/

lemma countPendingFor_append (l1 l2 : List FarmAttackPlan) (c : String) :
    countPendingFor (l1 ++ l2) c = countPendingFor l1 c + countPendingFor l2 c := by
  unfold countPendingFor
  rw [List.filter_append, List.length_append]

lemma countPendingFor_pos_any (l : List FarmAttackPlan) (c : String)
    (h : countPendingFor l c ≠ 0) :
    l.any (fun a => a.targetCoords = c ∧ a.status = .pending) = true := by
  unfold countPendingFor at h
  obtain ⟨a, ha⟩ := List.exists_mem_of_length_pos (Nat.pos_of_ne_zero h)
  have hmem := List.mem_of_mem_filter ha
  have hpred := List.of_mem_filter ha
  exact List.any_eq_true.mpr ⟨a, hmem, hpred⟩

lemma countPendingFor_zero_not_any (l : List FarmAttackPlan) (c : String)
    (h : countPendingFor l c = 0) :
    l.any (fun a => a.targetCoords = c ∧ a.status = .pending) = false := by
  rw [Bool.eq_false_iff]
  intro hany
  obtain ⟨a, hmem, hpred⟩ := List.any_eq_true.mp hany
  have hin : a ∈ l.filter (fun a =>
      decide (a.targetCoords = c ∧ a.status = PlanStatus.pending)) :=
    List.mem_filter.mpr ⟨hmem, hpred⟩
  unfold countPendingFor at h
  rw [List.length_eq_zero] at h
  rw [h] at hin
  cases hin

lemma scheduleAttack_frame (s : FarmServiceState) (t : FarmTarget)
    (tmpl : FarmAttackTemplate) (send arr : ℚ) :
    (scheduleAttack s t tmpl send arr).targets = s.targets
    ∧ (scheduleAttack s t tmpl send arr).sourceVillageId = s.sourceVillageId
    ∧ (scheduleAttack s t tmpl send arr).templateA = s.templateA
    ∧ (scheduleAttack s t tmpl send arr).templateB = s.templateB
    ∧ (scheduleAttack s t tmpl send arr).worldConfig = s.worldConfig
    ∧ (scheduleAttack s t tmpl send arr).enabled = s.enabled := by
  unfold scheduleAttack
  cases hv : s.sourceVillageId <;> simp [hv]

lemma processTarget_frame (now : ℚ) (s : FarmServiceState) (t : FarmTarget) :
    (processTarget now s t).targets = s.targets
    ∧ (processTarget now s t).sourceVillageId = s.sourceVillageId
    ∧ (processTarget now s t).templateA = s.templateA
    ∧ (processTarget now s t).templateB = s.templateB
    ∧ (processTarget now s t).worldConfig = s.worldConfig
    ∧ (processTarget now s t).enabled = s.enabled := by
  unfold processTarget
  split_ifs <;>
    first
      | exact ⟨rfl, rfl, rfl, rfl, rfl, rfl⟩
      | apply scheduleAttack_frame

lemma scheduleAttack_mem_plans (s : FarmServiceState) (t : FarmTarget)
    (tmpl : FarmAttackTemplate) (send arr : ℚ) (p : FarmAttackPlan)
    (hp : p ∈ s.scheduledAttacks) :
    p ∈ (scheduleAttack s t tmpl send arr).scheduledAttacks := by
  unfold scheduleAttack
  cases hv : s.sourceVillageId with
  | none => exact hp
  | some v => exact List.mem_append_left _ hp

lemma processTarget_mem_plans (now : ℚ) (s : FarmServiceState) (t : FarmTarget)
    (p : FarmAttackPlan) (hp : p ∈ s.scheduledAttacks) :
    p ∈ (processTarget now s t).scheduledAttacks := by
  unfold processTarget
  split_ifs <;>
    first
      | exact hp
      | exact scheduleAttack_mem_plans s t _ _ _ p hp

lemma scheduleAttack_other (s : FarmServiceState) (t : FarmTarget)
    (tmpl : FarmAttackTemplate) (send arr : ℚ) (c : String)
    (hne : t.coords ≠ c) :
    countPendingFor (scheduleAttack s t tmpl send arr).scheduledAttacks c
        = countPendingFor s.scheduledAttacks c
    ∧ lookupArrival (scheduleAttack s t tmpl send arr).arrivals c
        = lookupArrival s.arrivals c := by
  unfold scheduleAttack
  cases hv : s.sourceVillageId with
  | none => exact ⟨rfl, rfl⟩
  | some v =>
      constructor
      · show countPendingFor (s.scheduledAttacks ++ [_]) c = _
        rw [countPendingFor_append]
        have hz : countPendingFor [mkPlanOf t v tmpl
            (calculateTravelTimeMs s.worldConfig t.distance (getSlowestUnit tmpl))
            send arr] c = 0 := by
          unfold countPendingFor mkPlanOf
          simp [hne]
        rw [hz]
        exact Nat.add_zero _
      · exact lookupArrival_setArrival_ne s.arrivals t.coords c arr (Ne.symm hne)

lemma processTarget_other (now : ℚ) (s : FarmServiceState) (t : FarmTarget)
    (c : String) (hne : t.coords ≠ c) :
    countPendingFor (processTarget now s t).scheduledAttacks c
        = countPendingFor s.scheduledAttacks c
    ∧ lookupArrival (processTarget now s t).arrivals c
        = lookupArrival s.arrivals c := by
  unfold processTarget
  split_ifs <;>
    first
      | exact ⟨rfl, rfl⟩
      | exact scheduleAttack_other s t _ _ _ c hne

lemma processTarget_claimed (now : ℚ) (s : FarmServiceState) (t : FarmTarget)
    (h : countPendingFor s.scheduledAttacks t.coords ≠ 0) :
    processTarget now s t = s := by
  unfold processTarget
  by_cases h1 : t.status ≠ TargetStatus.available
  · rw [if_pos h1]
  · rw [if_neg h1, if_pos (countPendingFor_pos_any _ _ h)]

lemma processTarget_creates (now : ℚ) (s : FarmServiceState) (t : FarmTarget)
    (v : Nat) (hstat : t.status = .available)
    (hnp : countPendingFor s.scheduledAttacks t.coords = 0)
    (hv : s.sourceVillageId = some v) :
    processTarget now s t = { s with
      scheduledAttacks := s.scheduledAttacks ++
        [mkPlanOf t v (selectTemplate s) (travelOf s t)
          (localPlannedSendTime s t now)
          (localPlannedSendTime s t now + travelOf s t)]
      arrivals := setArrival s.arrivals t.coords
        (localPlannedSendTime s t now + travelOf s t) } := by
  unfold processTarget
  rw [if_neg (by rw [hstat]; simp)]
  rw [if_neg (by rw [countPendingFor_zero_not_any _ _ hnp]; simp)]
  unfold localPlannedSendTime
  by_cases hr : localRequiredSendTime s t ≤ now
  · rw [if_pos hr, if_pos hr]
    unfold scheduleAttack
    rw [hv]
    rfl
  · rw [if_neg hr, if_neg hr]
    unfold scheduleAttack
    rw [hv]
    rfl

lemma foldPass_frame (now : ℚ) (l : List FarmTarget) (s : FarmServiceState) :
    (l.foldl (processTarget now) s).targets = s.targets
    ∧ (l.foldl (processTarget now) s).sourceVillageId = s.sourceVillageId
    ∧ (l.foldl (processTarget now) s).templateA = s.templateA
    ∧ (l.foldl (processTarget now) s).templateB = s.templateB
    ∧ (l.foldl (processTarget now) s).worldConfig = s.worldConfig
    ∧ (l.foldl (processTarget now) s).enabled = s.enabled := by
  induction l generalizing s with
  | nil => exact ⟨rfl, rfl, rfl, rfl, rfl, rfl⟩
  | cons t rest ih =>
      simp only [List.foldl_cons]
      obtain ⟨f1, f2, f3, f4, f5, f6⟩ := ih (processTarget now s t)
      obtain ⟨g1, g2, g3, g4, g5, g6⟩ := processTarget_frame now s t
      exact ⟨f1.trans g1, f2.trans g2, f3.trans g3, f4.trans g4,
        f5.trans g5, f6.trans g6⟩

lemma foldPass_other (now : ℚ) (l : List FarmTarget) (s : FarmServiceState)
    (c : String) (hl : ∀ u ∈ l, u.coords ≠ c) :
    countPendingFor ((l.foldl (processTarget now) s)).scheduledAttacks c
        = countPendingFor s.scheduledAttacks c
    ∧ lookupArrival ((l.foldl (processTarget now) s)).arrivals c
        = lookupArrival s.arrivals c := by
  induction l generalizing s with
  | nil => exact ⟨rfl, rfl⟩
  | cons t rest ih =>
      simp only [List.foldl_cons]
      have ht := hl t (List.mem_cons_self _ _)
      obtain ⟨p1, p2⟩ := processTarget_other now s t c ht
      obtain ⟨q1, q2⟩ := ih (processTarget now s t)
        (fun u hu => hl u (List.mem_cons_of_mem _ hu))
      exact ⟨q1.trans p1, q2.trans p2⟩

lemma foldPass_claimed (now : ℚ) (l : List FarmTarget) (s : FarmServiceState)
    (c : String) (h : countPendingFor s.scheduledAttacks c ≠ 0) :
    countPendingFor ((l.foldl (processTarget now) s)).scheduledAttacks c
        = countPendingFor s.scheduledAttacks c := by
  induction l generalizing s with
  | nil => rfl
  | cons t rest ih =>
      simp only [List.foldl_cons]
      by_cases hc : t.coords = c
      · rw [processTarget_claimed now s t (by rw [hc]; exact h)]
        exact ih s h
      · have hp := (processTarget_other now s t c hc).1
        have := ih (processTarget now s t) (by rw [hp]; exact h)
        rw [this, hp]

lemma foldPass_mem (now : ℚ) (l : List FarmTarget) (s : FarmServiceState)
    (p : FarmAttackPlan) (hp : p ∈ s.scheduledAttacks) :
    p ∈ ((l.foldl (processTarget now) s)).scheduledAttacks := by
  induction l generalizing s with
  | nil => exact hp
  | cons t rest ih =>
      simp only [List.foldl_cons]
      exact ih (processTarget now s t) (processTarget_mem_plans now s t p hp)

lemma selectTemplate_congr (s1 s2 : FarmServiceState)
    (hA : s1.templateA = s2.templateA) (hB : s1.templateB = s2.templateB) :
    selectTemplate s1 = selectTemplate s2 := by
  unfold selectTemplate
  rw [hA, hB]

lemma travelOf_congr (s1 s2 : FarmServiceState) (t : FarmTarget)
    (hw : s1.worldConfig = s2.worldConfig)
    (hA : s1.templateA = s2.templateA) (hB : s1.templateB = s2.templateB) :
    travelOf s1 t = travelOf s2 t := by
  unfold travelOf
  rw [hw, selectTemplate_congr s1 s2 hA hB]

/-- An enabled pass is the fold of the per-target loop over a state whose
arrival map was replaced by the background's. -/
lemma pass_eq (bg : ArrivalMap) (now : ℚ) (s : FarmServiceState)
    (hen : s.enabled = true) :
    checkAndScheduleAttacks (some bg) now s
      = s.targets.foldl (processTarget now) { s with arrivals := bg } := by
  unfold checkAndScheduleAttacks
  rw [if_neg (by rw [hen]; simp)]

/-- The pass keeps the enabled flag. -/
lemma pass_enabled (bg : Option ArrivalMap) (now : ℚ) (s : FarmServiceState) :
    (checkAndScheduleAttacks bg now s).enabled = s.enabled := by
  unfold checkAndScheduleAttacks
  by_cases he : s.enabled = false
  · rw [if_pos he]
  · rw [if_neg he]
    exact (foldPass_frame now _ _).2.2.2.2.2

/-- Core behaviour of one pass on one eligible target: it creates exactly
one pending plan, whose send and arrival times follow the required-send-time
rule computed from the synced background arrivals. -/
lemma pass_core (bg : ArrivalMap) (now : ℚ) (s : FarmServiceState)
    (t : FarmTarget) (v : Nat)
    (hmem : t ∈ s.targets)
    (hstat : t.status = .available)
    (hnodup : (s.targets.map (fun x => x.coords)).Nodup)
    (hsrc : s.sourceVillageId = some v)
    (hen : s.enabled = true)
    (hnp : countPendingFor s.scheduledAttacks t.coords = 0) :
    mkPlanOf t v (selectTemplate s) (travelOf s t) (plannedSendTime bg s t now)
        (plannedSendTime bg s t now + travelOf s t)
      ∈ (checkAndScheduleAttacks (some bg) now s).scheduledAttacks
    ∧ countPendingFor
        (checkAndScheduleAttacks (some bg) now s).scheduledAttacks t.coords = 1 := by
  obtain ⟨l1, l2, hsplit⟩ := List.append_of_mem hmem
  rw [pass_eq bg now s hen]
  set s0 : FarmServiceState := { s with arrivals := bg } with hs0def
  rw [hsplit, List.foldl_append, List.foldl_cons]
  set s1 := l1.foldl (processTarget now) s0 with hs1def
  have hcoordsplit : s.targets.map (fun x => x.coords)
      = (l1.map (fun x => x.coords)) ++ t.coords :: (l2.map (fun x => x.coords)) := by
    rw [hsplit]
    simp
  have hnd2 : ((l1.map (fun x => x.coords))
      ++ t.coords :: (l2.map (fun x => x.coords))).Nodup := by
    rw [← hcoordsplit]
    exact hnodup
  obtain ⟨hndA, hndB, hdisj⟩ := List.nodup_append.mp hnd2
  have hl1 : ∀ u ∈ l1, u.coords ≠ t.coords := by
    intro u hu he
    exact hdisj (he ▸ List.mem_map_of_mem _ hu) (List.mem_cons_self _ _)
  have hl2 : ∀ u ∈ l2, u.coords ≠ t.coords := by
    intro u hu he
    have := List.Nodup.not_mem hndB
    exact this (he ▸ List.mem_map_of_mem _ hu)
  obtain ⟨f1, f2, f3, f4, f5, f6⟩ := foldPass_frame now l1 s0
  obtain ⟨hc1, ha1⟩ := foldPass_other now l1 s0 t.coords hl1
  have hnp1 : countPendingFor s1.scheduledAttacks t.coords = 0 := by
    rw [hc1]
    exact hnp
  have hsrc1 : s1.sourceVillageId = some v := by
    rw [f2]
    exact hsrc
  have htravel : travelOf s1 t = travelOf s t :=
    travelOf_congr s1 s t f5 f3 f4
  have hstmpl : selectTemplate s1 = selectTemplate s :=
    selectTemplate_congr s1 s f3 f4
  have hreq : localRequiredSendTime s1 t = requiredSendTimeOf bg s t := by
    unfold localRequiredSendTime requiredSendTimeOf
    rw [ha1, htravel]
  have hplanned : localPlannedSendTime s1 t now = plannedSendTime bg s t now := by
    unfold localPlannedSendTime plannedSendTime
    rw [hreq]
  have hplan : processTarget now s1 t = { s1 with
      scheduledAttacks := s1.scheduledAttacks ++
        [mkPlanOf t v (selectTemplate s) (travelOf s t)
          (plannedSendTime bg s t now) (plannedSendTime bg s t now + travelOf s t)]
      arrivals := setArrival s1.arrivals t.coords
        (plannedSendTime bg s t now + travelOf s t) } := by
    rw [processTarget_creates now s1 t v hstat hnp1 hsrc1, hstmpl, htravel, hplanned]
  constructor
  · apply foldPass_mem
    rw [hplan]
    exact List.mem_append_right _ (List.mem_singleton_self _)
  · have h2 : countPendingFor (processTarget now s1 t).scheduledAttacks t.coords = 1 := by
      rw [hplan]
      show countPendingFor (s1.scheduledAttacks ++ [_]) t.coords = 1
      rw [countPendingFor_append, hnp1]
      unfold countPendingFor mkPlanOf
      simp
    rw [foldPass_claimed now l2 _ t.coords (by rw [h2]; exact one_ne_zero)]
    exact h2

/-- Claim C7: for an available target with no pending plan the pass creates
a plan with `sendTime = now` and `arrivalTime = now + travelTime` when
`requiredSendTime = nextAllowedArrival - travelTime ≤ now`, and with
`sendTime = requiredSendTime` exactly and
`arrivalTime = requiredSendTime + travelTime` otherwise; exactly one pending
plan for the target exists afterwards. -/
theorem checkAndScheduleAttacks_spec (bg : ArrivalMap) (now : ℚ)
    (s : FarmServiceState) (t : FarmTarget) (v : Nat)
    (hmem : t ∈ s.targets)
    (hstat : t.status = .available)
    (hnodup : (s.targets.map (fun x => x.coords)).Nodup)
    (hsrc : s.sourceVillageId = some v)
    (hen : s.enabled = true)
    (hnp : countPendingFor s.scheduledAttacks t.coords = 0) :
    (∃ p ∈ (checkAndScheduleAttacks (some bg) now s).scheduledAttacks,
        p.targetCoords = t.coords ∧ p.sourceVillageId = v ∧ p.status = .pending
        ∧ p.sendTime = plannedSendTime bg s t now
        ∧ p.arrivalTime = plannedSendTime bg s t now + travelOf s t
        ∧ p.travelTimeMs = travelOf s t)
    ∧ countPendingFor
        (checkAndScheduleAttacks (some bg) now s).scheduledAttacks t.coords = 1 := by
  obtain ⟨hmem2, hcount⟩ := pass_core bg now s t v hmem hstat hnodup hsrc hen hnp
  exact ⟨⟨_, hmem2, rfl, rfl, rfl, rfl, rfl, rfl⟩, hcount⟩

/-- Witness for C7 at the spec's scenario numbers: last arrival T = 10^12,
interval 1,800,000, travel 300,000, checked at T + 1,000,000; the plan's
send time is T + 1,500,000 and its arrival time T + 1,800,000. -/
theorem checkAndScheduleAttacks_spec_witness :
    ((∃ p ∈ (checkAndScheduleAttacks (some bgW) 1000001000000 svcV1).scheduledAttacks,
        p.targetCoords = tgtW.coords ∧ p.sourceVillageId = 1 ∧ p.status = .pending
        ∧ p.sendTime = plannedSendTime bgW svcV1 tgtW 1000001000000
        ∧ p.arrivalTime = plannedSendTime bgW svcV1 tgtW 1000001000000 + travelOf svcV1 tgtW
        ∧ p.travelTimeMs = travelOf svcV1 tgtW)
      ∧ countPendingFor
          (checkAndScheduleAttacks (some bgW) 1000001000000 svcV1).scheduledAttacks
          tgtW.coords = 1)
    ∧ plannedSendTime bgW svcV1 tgtW 1000001000000 = 1000001500000
    ∧ travelOf svcV1 tgtW = 300000 :=
  ⟨checkAndScheduleAttacks_spec bgW 1000001000000 svcV1 tgtW 1
      (List.mem_singleton_self tgtW) rfl (List.nodup_singleton _) rfl rfl rfl,
   by norm_num [plannedSendTime, requiredSendTimeOf, travelOf, calculateTravelTimeMs,
     selectTemplate, getSlowestUnit, tmplLight, svcV1, tgtW, bgW, lookupArrival,
     List.find?, UNIT_SPEEDS, effWorldSpeed, effUnitModifier, FARM_TARGET_INTERVAL_MS],
   by norm_num [travelOf, calculateTravelTimeMs, selectTemplate, getSlowestUnit,
     tmplLight, svcV1, tgtW, UNIT_SPEEDS, effWorldSpeed, effUnitModifier]⟩

/-- Claim C2, counterexample: two passes from two different source villages
over the same eligible target, with the shared background arrivals unchanged
in between (nothing was actually sent inside the tick), each create their
own pending plan — afterwards two pending plans exist for the target, not
one.  The optimistic arrival is pre-registered only in each instance's
local map, and the per-village duplicate check does not see the other
village's plan. -/
theorem two_villages_duplicate_plans :
    countPendingFor
        (checkAndScheduleAttacks (some []) 2000000 svcV1).scheduledAttacks "500|500" = 1
    ∧ countPendingFor
        (checkAndScheduleAttacks (some []) 2000000 svcV2).scheduledAttacks "500|500" = 1
    ∧ countPendingFor
        ((checkAndScheduleAttacks (some []) 2000000 svcV1).scheduledAttacks
          ++ (checkAndScheduleAttacks (some []) 2000000 svcV2).scheduledAttacks)
        "500|500" = 2
    ∧ (2 : Nat) ≠ 1 := by
  refine ⟨?_, ?_, ?_, by norm_num⟩ <;>
    norm_num [checkAndScheduleAttacks, processTarget, scheduleAttack,
      localRequiredSendTime, localPlannedSendTime, travelOf, calculateTravelTimeMs,
      selectTemplate, getSlowestUnit, tmplLight, svcV1, svcV2, tgtW, lookupArrival,
      setArrival, List.find?, UNIT_SPEEDS, effWorldSpeed, effUnitModifier,
      FARM_TARGET_INTERVAL_MS, countPendingFor, mkPlanOf]

/-- Claim C2 as amended: only two passes by the same service instance (same
source village) leave exactly one pending plan for the target — the second
pass skips it because a pending plan already exists in that instance's own
list, not because of the pre-registered arrival; passes from different
source villages each create their own plan. -/
theorem same_instance_second_pass_skips (bg : ArrivalMap) (now1 now2 : ℚ)
    (s : FarmServiceState) (t : FarmTarget) (v : Nat)
    (hmem : t ∈ s.targets)
    (hstat : t.status = .available)
    (hnodup : (s.targets.map (fun x => x.coords)).Nodup)
    (hsrc : s.sourceVillageId = some v)
    (hen : s.enabled = true)
    (hnp : countPendingFor s.scheduledAttacks t.coords = 0) :
    countPendingFor
        (checkAndScheduleAttacks (some bg) now2
          (checkAndScheduleAttacks (some bg) now1 s)).scheduledAttacks t.coords = 1 := by
  have h1 := (pass_core bg now1 s t v hmem hstat hnodup hsrc hen hnp).2
  set s1 := checkAndScheduleAttacks (some bg) now1 s with hs1def
  have hen1 : s1.enabled = true := (pass_enabled (some bg) now1 s).trans hen
  rw [pass_eq bg now2 s1 hen1]
  rw [foldPass_claimed now2 _ _ t.coords (by
    show countPendingFor s1.scheduledAttacks t.coords ≠ 0
    rw [h1]
    exact one_ne_zero)]
  exact h1

/-- Witness for the amended C2 at a concrete same-village double pass. -/
theorem same_instance_second_pass_skips_witness :
    countPendingFor
        (checkAndScheduleAttacks (some []) 2000001
          (checkAndScheduleAttacks (some []) 2000000 svcV1)).scheduledAttacks
        "500|500" = 1 :=
  same_instance_second_pass_skips [] 2000000 2000001 svcV1 tgtW 1
    (List.mem_singleton_self tgtW) rfl (List.nodup_singleton _) rfl rfl rfl

end TW
